import Mathlib

/-!
Verification of the OH_Toolkit repository (`oh_parser` package).

The repository ships `oh_parser/cli.py` (the CLI front end) and `testing.py`
(a usage script).  The library modules it imports — `oh_parser.loader`
(`load_profiles`, `list_subjects`, `get_profile`) and `oh_parser.extract`
(`inspect_profile`, `get_available_paths`, `summarize_profiles`) — are not
part of the source tree, so those operations are modelled from the
specification; every such definition carries a doc comment saying so.
The CLI `main` function is embedded directly from `cli.py`.
-/

set_option autoImplicit false

namespace OH

/-- A JSON value tree, as described by the spec data model: a mapping from
string keys to documents (insertion order preserved), an ordered sequence of
documents, or a scalar (string / number / boolean / null).  Numbers are
modelled as integers; the numeric value itself is never interpreted by any
operation in this repository. -/
inductive Doc where
  | str (s : String)
  | num (n : Int)
  | bool (b : Bool)
  | null
  | arr (elems : List Doc)
  | obj (fields : List (String × Doc))

instance : Inhabited Doc := ⟨Doc.null⟩

/-- A Profile Store: mapping from subject identifier to parsed document,
in insertion order (a Python `dict`). -/
abbrev Store := List (String × Doc)

/-- The keys of a store, in insertion order. -/
def Store.keys (s : Store) : List String :=
  s.map Prod.fst

/-- `d[k] = v` on a Python dict: if the key is present its value is replaced
in place (keeping its position), otherwise the pair is appended. -/
def Store.setKey (s : Store) (k : String) (d : Doc) : Store :=
  if s.any (fun kv => kv.1 == k) then
    s.map (fun kv => if kv.1 == k then (k, d) else kv)
  else
    s ++ [(k, d)]

/-- Modelled from the spec: the directory input of `load_profiles`
(`oh_parser.loader` is not in the source tree).  `none` is a directory that
does not exist; otherwise the ordered list of files matching the JSON naming
convention, each given by its stem and its parse result (`none` = the file
failed to parse and is skipped). -/
abbrev Directory := Option (List (String × Option Doc))

/-- Modelled from the spec: `load_profiles` from `oh_parser.loader` (not in
the source tree).  Scans the directory; a missing directory or an empty scan
yields the empty mapping, a file that fails to parse is skipped, and the
subject identifier is the file stem, later files overwriting earlier ones on
collision.  The `verbose` flag only gates diagnostic output and does not
affect the resulting mapping. -/
def load_profiles (dir : Directory) (verbose : Bool) : Store :=
  match dir with
  | none => []
  | some files =>
      let _ := verbose
      files.foldl
        (fun acc file =>
          match file.2 with
          | none => acc
          | some d => acc.setKey file.1 d)
        []

/-- Modelled from the spec: `list_subjects` from `oh_parser.loader` (not in
the source tree) — the sorted, deterministic listing of the store keys. -/
def list_subjects (s : Store) : List String :=
  List.insertionSort (fun a b => a ≤ b) s.keys

/-- Modelled from the spec: `get_profile` from `oh_parser.loader` (not in
the source tree) — pure lookup, an explicit absent value (`none`) on a
missing key, as a Python `dict.get`. -/
def get_profile (s : Store) (id : String) : Option Doc :=
  (s.find? (fun kv => kv.1 == id)).map Prod.snd

/- ### Basic store lemmas -/

theorem Store.keys_setKey (s : Store) (k : String) (d : Doc) :
    (s.setKey k d).keys = if k ∈ s.keys then s.keys else s.keys ++ [k] := by
  have hfst : ∀ kv : String × Doc, (if (kv.1 == k) = true then (k, d) else kv).1 = kv.1 := by
    intro kv
    by_cases h : kv.1 = k <;> simp [h]
  have hmem : (s.any (fun kv => kv.1 == k)) = true ↔ k ∈ s.keys := by
    simp only [List.any_eq_true, Store.keys, List.mem_map, beq_iff_eq]
  unfold Store.setKey
  by_cases h : k ∈ s.keys
  · rw [if_pos (hmem.mpr h), if_pos h]
    unfold Store.keys
    rw [List.map_map]
    exact List.map_congr_left (fun kv _ => hfst kv)
  · rw [if_neg (fun hc => h (hmem.mp hc)), if_neg h]
    unfold Store.keys
    simp

theorem Store.mem_keys_setKey (s : Store) (k k' : String) (d : Doc) :
    k' ∈ (s.setKey k d).keys ↔ k' ∈ s.keys ∨ k' = k := by
  rw [Store.keys_setKey]
  by_cases h : k ∈ s.keys
  · simp only [h, if_true]
    constructor
    · exact fun hk => Or.inl hk
    · rintro (hk | rfl)
      · exact hk
      · exact h
  · simp [h]

theorem Store.nodup_keys_setKey (s : Store) (k : String) (d : Doc)
    (hs : s.keys.Nodup) : (s.setKey k d).keys.Nodup := by
  rw [Store.keys_setKey]
  by_cases h : k ∈ s.keys
  · simpa [h] using hs
  · simp only [h, if_false]
    simpa [List.nodup_append] using ⟨hs, h⟩

/-- The store built by `load_profiles` has no duplicate keys. -/
theorem load_profiles_nodup_keys (dir : Directory) (v : Bool) :
    (load_profiles dir v).keys.Nodup := by
  match dir with
  | none => simp [load_profiles, Store.keys]
  | some files =>
      suffices h : ∀ (acc : Store), acc.keys.Nodup →
          (files.foldl
            (fun acc file =>
              match file.2 with
              | none => acc
              | some d => acc.setKey file.1 d) acc).keys.Nodup by
        exact h [] (by simp [Store.keys])
      induction files with
      | nil => intro acc hacc; exact hacc
      | cons f fs ih =>
          intro acc hacc
          simp only [List.foldl_cons]
          match hf : f.2 with
          | none => exact ih acc hacc
          | some d => exact ih _ (Store.nodup_keys_setKey acc f.1 d hacc)

/- ### Path Enumerator (`oh_parser.extract`, modelled from the spec) -/

/-- One segment of a path into a document: a mapping key (dotted) or a
sequence index (bracketed). -/
inductive Seg where
  | key (k : String)
  | idx (i : Nat)
deriving DecidableEq

/-- Render the first segment of a path (no leading dot on a key). -/
def renderSegFirst : Seg → String
  | Seg.key k => k
  | Seg.idx i => "[" ++ toString i ++ "]"

/-- Render a non-first segment of a path. -/
def renderSegRest : Seg → String
  | Seg.key k => "." ++ k
  | Seg.idx i => "[" ++ toString i ++ "]"

/-- Render a whole path: dotted key segments, bracketed indices. -/
def renderPath : List Seg → String
  | [] => ""
  | s :: rest => renderSegFirst s ++ String.join (rest.map renderSegRest)

/-- Modelled from the spec: the recursive core of `get_available_paths` from
`oh_parser.extract` (not in the source tree).  Walks the document in
traversal order (insertion order for mappings, index order for sequences)
and emits one path — as a segment list — for every mapping entry and
sequence element visited; descent into a child stops once the depth budget
is exhausted, so a path of `n` segments needs `max_depth ≥ n`. -/
def childPaths : Nat → Doc → List (List Seg)
  | 0, _ => []
  | n + 1, Doc.obj kvs =>
      kvs.flatMap (fun kv =>
        [Seg.key kv.1] :: (childPaths n kv.2).map (fun p => Seg.key kv.1 :: p))
  | n + 1, Doc.arr xs =>
      xs.enum.flatMap (fun ix =>
        [Seg.idx ix.1] :: (childPaths n ix.2).map (fun p => Seg.idx ix.1 :: p))
  | _ + 1, Doc.str _ => []
  | _ + 1, Doc.num _ => []
  | _ + 1, Doc.bool _ => []
  | _ + 1, Doc.null => []

/-- Modelled from the spec: `enumerate_paths` — the ordered sequence of
rendered path strings of all nodes within the depth bound. -/
def enumerate_paths (d : Doc) (max_depth : Nat) : List String :=
  (childPaths max_depth d).map renderPath

/-- Error message of the InvalidArgument failure for a negative depth. -/
def invalidDepthMsg : String := "Invalid argument: max_depth must be >= 0"

/-- Modelled from the spec: `get_available_paths` from `oh_parser.extract`
(not in the source tree); fails fast with an InvalidArgument error on a
negative `max_depth` (spec, Failure semantics), otherwise returns the
enumerated paths. -/
def get_available_paths (d : Doc) (max_depth : Int) : Except String (List String) :=
  if max_depth < 0 then Except.error invalidDepthMsg
  else Except.ok (enumerate_paths d max_depth.toNat)

/- ### Tree Inspector (`oh_parser.extract`, modelled from the spec) -/

/-- The Python type annotation of a document node. -/
def typeName : Doc → String
  | Doc.str _ => "str"
  | Doc.num _ => "int"
  | Doc.bool _ => "bool"
  | Doc.null => "NoneType"
  | Doc.arr _ => "list"
  | Doc.obj _ => "dict"

/-- Whether a node is a container (mapping or sequence). -/
def Doc.isContainer : Doc → Bool
  | Doc.arr _ => true
  | Doc.obj _ => true
  | _ => false

/-- Modelled from the spec: the recursive outline renderer of
`inspect_profile` (not in the source tree).  A mapping renders each key with
a type annotation and recurses into container values while depth budget
remains (at budget 0 only the top-level keys/types are shown); a sequence
renders up to three sample elements; a scalar renders its type and a short
preview. -/
def outline : Nat → String → Doc → List String
  | _, ind, Doc.str s => [ind ++ "str: " ++ s.take 40]
  | _, ind, Doc.num n => [ind ++ "int: " ++ toString n]
  | _, ind, Doc.bool b => [ind ++ "bool: " ++ (if b then "True" else "False")]
  | _, ind, Doc.null => [ind ++ "NoneType: None"]
  | 0, ind, Doc.obj kvs =>
      kvs.map (fun kv => ind ++ kv.1 ++ ": " ++ typeName kv.2)
  | 0, ind, Doc.arr xs => [ind ++ "list[" ++ toString xs.length ++ "]"]
  | f + 1, ind, Doc.obj kvs =>
      kvs.flatMap (fun kv =>
        (ind ++ kv.1 ++ ": " ++ typeName kv.2) ::
        (if kv.2.isContainer then outline f (ind ++ "  ") kv.2 else []))
  | f + 1, ind, Doc.arr xs =>
      (ind ++ "list[" ++ toString xs.length ++ "]") ::
      (xs.take 3).flatMap (outline f (ind ++ "  "))

/-- Modelled from the spec: `inspect_profile` from `oh_parser.extract` (not
in the source tree); `max_depth` must be ≥ 0, a negative value fails fast
with an InvalidArgument error (spec §4.2 and Failure semantics); otherwise
returns the printed outline lines. -/
def inspect_profile (p : Doc) (max_depth : Int) : Except String (List String) :=
  if max_depth < 0 then Except.error invalidDepthMsg
  else Except.ok (outline max_depth.toNat "" p)

/- ### Summary Builder (`oh_parser.extract`, modelled from the spec) -/

/-- Modelled from the spec: resolving one candidate field path inside a
document; absent whenever a key or index along the route is missing. -/
def resolvePath : Doc → List Seg → Option Doc
  | d, [] => some d
  | Doc.obj kvs, Seg.key k :: rest =>
      match kvs.find? (fun kv => kv.1 == k) with
      | some kv => resolvePath kv.2 rest
      | none => none
  | Doc.arr xs, Seg.idx i :: rest =>
      match xs.get? i with
      | some x => resolvePath x rest
      | none => none
  | _, _ :: _ => none

/-- One Summary Row: the subject identifier plus one presence flag per
candidate field. -/
structure SummaryRow where
  subject : String
  fields : List (String × Bool)
deriving DecidableEq

/-- Modelled from the spec: `summarize_profiles` from `oh_parser.extract`
(not in the source tree).  For every subject, in the sorted Profile Store
listing order, one row recording for each candidate field path whether it
resolves to a present value; the statically known, domain-specific candidate
field set is not in the source tree either, so it is a parameter here. -/
def summarize_profiles (fields : List (String × List Seg)) (s : Store) :
    List SummaryRow :=
  (list_subjects s).map (fun sid =>
    { subject := sid
      fields := fields.map (fun f =>
        (f.1,
          match get_profile s sid with
          | some d => (resolvePath d f.2).isSome
          | none => false)) })

/-- Modelled from the spec: a representative candidate field set
(demographic fields, assessment sections); the concrete set lives in
`oh_parser.extract`, which is not in the source tree. -/
def candidateFields : List (String × List Seg) :=
  [("demographics", [Seg.key "demographics"]),
   ("assessments", [Seg.key "assessments"])]

/- ### CLI (`oh_parser/cli.py`, embedded from the source) -/

/-- The built-in default profile directory of `cli.py`. -/
def DEFAULT_OH_DIRECTORY : String := "E:\\Backup PrevOccupAI_PLUS Data\\OH_profiles"

/-- The argparse namespace of `cli.py`: positional `directory` (default
`DEFAULT_OH_DIRECTORY`), `--list` (dest `list_subjects`), `--inspect`,
`--depth` (default 3), `--paths`, `--summary`, `--quiet`.  The two
`SUBJECT_ID` options hold `none` when the flag is not supplied. -/
structure Args where
  directory : String := DEFAULT_OH_DIRECTORY
  list_subjects : Bool := false
  inspect : Option String := none
  depth : Int := 3
  paths : Option String := none
  summary : Bool := false
  quiet : Bool := false
deriving DecidableEq

/-- Python truthiness of an optional string: `None` and `""` are falsy.
This is what `elif args.inspect:` and `elif args.paths:` test in
`cli.py`. -/
def truthy : Option String → Bool
  | none => false
  | some s => !(s == "")

/-- Observable outcome of one CLI invocation that terminated: the process
exit code and the lines printed to stdout and stderr (both `sys.exit(1)` and
an exception escaping `main` end the process with exit code 1). -/
structure MainOutcome where
  exitCode : Nat
  stdout : List String
  stderr : List String
deriving DecidableEq

/-- Modelled from the spec: rendering of one summary row; tabular display
formatting is explicitly outside the spec's scope, so one row is one
line. -/
def renderRow (r : SummaryRow) : String :=
  r.subject ++ String.join (r.fields.map (fun f => " " ++ (if f.2 then "True" else "False")))

/-- Modelled from the spec: rendering of the summary table
(`df.to_string(index=False)` in `cli.py`): a header line, then one line per
row. -/
def renderTable (rows : List SummaryRow) : List String :=
  (String.intercalate " " ("subject" :: candidateFields.map Prod.fst)) :: rows.map renderRow

/-- The `'='*60` separator of the default branch of `cli.py`. -/
def eqLine : String := String.pushn "" '=' 60

/-- The body of `main` in `cli.py` after `load_profiles` returned
`profiles`: the `if not profiles` guard followed by the `if/elif` action
chain.  Each `print` becomes one line of `stdout`; the default branch's
`print(..., end="")` is folded into the line it completes.  The `--paths`
branch calls `get_available_paths` with the literal depth 6 (never
negative), so its result is always the enumerated path list.  In the
`--inspect` branch an InvalidArgument failure of `inspect_profile` escapes
`main`, which has no handler, so the interpreter reports it on stderr and
the process exits with code 1. -/
def mainRun (args : Args) (profiles : Store) : MainOutcome :=
  if profiles.isEmpty then
    { exitCode := 1, stdout := [], stderr := ["No profiles loaded."] }
  else if args.list_subjects then
    let subjects := list_subjects profiles
    { exitCode := 0
      stdout := (s!"\nSubjects ({subjects.length}):") :: subjects.map (fun s => "  " ++ s)
      stderr := [] }
  else if truthy args.inspect then
    let sid := args.inspect.getD ""
    match get_profile profiles sid with
    | none =>
        { exitCode := 1, stdout := []
          stderr := [s!"Error: Subject '{sid}' not found."] }
    | some profile =>
        match inspect_profile profile args.depth with
        | Except.error e =>
            { exitCode := 1
              stdout := [s!"\nInspecting profile for subject: {sid}"]
              stderr := [e] }
        | Except.ok outlineLines =>
            { exitCode := 0
              stdout := (s!"\nInspecting profile for subject: {sid}") :: outlineLines
              stderr := [] }
  else if truthy args.paths then
    let sid := args.paths.getD ""
    match get_profile profiles sid with
    | none =>
        { exitCode := 1, stdout := []
          stderr := [s!"Error: Subject '{sid}' not found."] }
    | some profile =>
        let paths := enumerate_paths profile 6
        { exitCode := 0
          stdout := (s!"\nAvailable paths for subject {sid} ({paths.length} total):")
            :: ((paths.take 50).map (fun p => "  " ++ p)
              ++ (if 50 < paths.length then [s!"  ... and {paths.length - 50} more"] else []))
          stderr := [] }
  else if args.summary then
    { exitCode := 0
      stdout := "\nData availability summary:"
        :: renderTable (summarize_profiles candidateFields profiles)
      stderr := [] }
  else
    let subjects := list_subjects profiles
    { exitCode := 0
      stdout :=
        [s!"\n{eqLine}",
         s!"OH Parser - Loaded {subjects.length} profiles",
         eqLine,
         (s!"\nSubjects: " ++ String.intercalate ", " (subjects.take 10)
           ++ (if 10 < subjects.length then s!" ... and {subjects.length - 10} more" else "")),
         "\nUsage examples:",
         s!"  oh_parser \"{args.directory}\" --list",
         (s!"  oh_parser \"{args.directory}\" --inspect " ++ (subjects.head?.getD "")),
         s!"  oh_parser \"{args.directory}\" --summary"]
      stderr := [] }

/-- `main` from `cli.py`: load the profiles from the directory (verbose
unless `--quiet`), then run the guard and the action chain. -/
def main (args : Args) (dir : Directory) : MainOutcome :=
  mainRun args (load_profiles dir (!args.quiet))

/-- The five alternatives of the CLI `if/elif` action chain. -/
inductive Action where
  | list
  | inspect
  | paths
  | summary
  | default
deriving DecidableEq

/-- The action `main` executes once profiles are loaded: `--list` wins over
`--inspect`, which wins over `--paths`, which wins over `--summary`; a
string-valued flag participates only when argparse stored a truthy
(non-empty) value. -/
def selectedAction (args : Args) : Action :=
  if args.list_subjects then Action.list
  else if truthy args.inspect then Action.inspect
  else if truthy args.paths then Action.paths
  else if args.summary then Action.summary
  else Action.default

/-- `args` with every action flag other than the selected one turned off. -/
def keepSelected (a : Args) : Args :=
  match selectedAction a with
  | Action.list => { a with inspect := none, paths := none, summary := false }
  | Action.inspect => { a with paths := none, summary := false }
  | Action.paths => { a with summary := false }
  | _ => a

/- ### Lookup lemmas -/

theorem get_profile_eq_none_iff (s : Store) (id : String) :
    get_profile s id = none ↔ id ∉ s.keys := by
  induction s with
  | nil => simp [get_profile, Store.keys]
  | cons kv t ih =>
      by_cases hk : kv.1 = id
      · have hfind : (kv :: t).find? (fun kv => kv.1 == id) = some kv :=
          List.find?_cons_of_pos _ (by simp [hk])
        simp [get_profile, hfind, Store.keys, hk]
      · have hfind : (kv :: t).find? (fun kv => kv.1 == id) =
            t.find? (fun kv => kv.1 == id) :=
          List.find?_cons_of_neg _ (by simp [hk])
        simp only [get_profile, hfind, Store.keys, List.map_cons, List.mem_cons]
        have ih2 : Option.map Prod.snd (t.find? (fun kv => kv.1 == id)) = none ↔
            id ∉ Store.keys t := ih
        rw [ih2]
        unfold Store.keys
        constructor
        · intro h hc
          rcases hc with hc | hc
          · exact hk hc.symm
          · exact h hc
        · intro h hc
          exact h (Or.inr hc)

theorem get_profile_mem (s : Store) (id : String) (d : Doc)
    (h : get_profile s id = some d) : (id, d) ∈ s := by
  induction s with
  | nil => simp [get_profile] at h
  | cons kv t ih =>
      by_cases hk : kv.1 = id
      · have hfind : (kv :: t).find? (fun kv => kv.1 == id) = some kv :=
          List.find?_cons_of_pos _ (by simp [hk])
        simp only [get_profile, hfind, Option.map_some] at h
        have : (id, d) = kv := by
          cases h
          exact Prod.ext hk.symm rfl
        rw [this]
        exact List.mem_cons_self kv t
      · have hfind : (kv :: t).find? (fun kv => kv.1 == id) =
            t.find? (fun kv => kv.1 == id) :=
          List.find?_cons_of_neg _ (by simp [hk])
        simp only [get_profile, hfind] at h
        exact List.mem_cons_of_mem kv (ih h)

/-- C6: for every store and subject identifier, `get_profile` is a pure
total lookup: it returns the absent value `none` exactly when the identifier
is not a key of the store, and whenever it returns a document that document
is the store's entry for the identifier; being a total function of its
inputs, it can never raise on a missing key. -/
theorem c6_get_profile_pure_lookup (s : Store) (id : String) :
    (get_profile s id = none ↔ id ∉ s.keys) ∧
    (get_profile s id).elim True (fun d => (id, d) ∈ s) := by
  refine ⟨get_profile_eq_none_iff s id, ?_⟩
  match h : get_profile s id with
  | none => exact trivial
  | some d => exact get_profile_mem s id d h

/-- Witness for C6 at a concrete store: the lookup of an absent key and of a
present key on `[("A", null)]`. -/
theorem c6_witness :
    ((get_profile [("A", Doc.null)] "B" = none ↔ "B" ∉ Store.keys [("A", Doc.null)]) ∧
      (get_profile [("A", Doc.null)] "B").elim True (fun d => ("B", d) ∈ [("A", Doc.null)])) ∧
    (get_profile [("A", Doc.null)] "A").elim True (fun d => ("A", d) ∈ [("A", Doc.null)]) :=
  ⟨c6_get_profile_pure_lookup [("A", Doc.null)] "B",
   (c6_get_profile_pure_lookup [("A", Doc.null)] "A").2⟩

/- ### Load lemmas -/

theorem load_profiles_mem_keys (files : List (String × Option Doc)) (v : Bool)
    (k : String) :
    k ∈ (load_profiles (some files) v).keys ↔
      ∃ f ∈ files, f.2.isSome ∧ f.1 = k := by
  unfold load_profiles
  suffices h : ∀ acc : Store,
      (k ∈ (files.foldl
        (fun acc file =>
          match file.2 with
          | none => acc
          | some d => acc.setKey file.1 d) acc).keys ↔
        k ∈ acc.keys ∨ ∃ f ∈ files, f.2.isSome ∧ f.1 = k) by
    simpa [Store.keys] using h []
  induction files with
  | nil => intro acc; simp
  | cons f fs ih =>
      intro acc
      simp only [List.foldl_cons]
      match hf : f.2 with
      | none =>
          simp only [hf]
          rw [ih acc]
          constructor
          · rintro (h | ⟨g, hg, hgs, rfl⟩)
            · exact Or.inl h
            · exact Or.inr ⟨g, List.mem_cons_of_mem f hg, hgs, rfl⟩
          · rintro (h | ⟨g, hg, hgs, rfl⟩)
            · exact Or.inl h
            · rcases List.mem_cons.mp hg with rfl | hg2
              · rw [hf] at hgs; simp at hgs
              · exact Or.inr ⟨g, hg2, hgs, rfl⟩
      | some d =>
          simp only [hf]
          rw [ih (acc.setKey f.1 d)]
          rw [Store.mem_keys_setKey]
          constructor
          · rintro ((h | rfl) | ⟨g, hg, hgs, rfl⟩)
            · exact Or.inl h
            · exact Or.inr ⟨f, List.mem_cons_self f fs, by rw [hf]; rfl, rfl⟩
            · exact Or.inr ⟨g, List.mem_cons_of_mem f hg, hgs, rfl⟩
          · rintro (h | ⟨g, hg, hgs, rfl⟩)
            · exact Or.inl (Or.inl h)
            · rcases List.mem_cons.mp hg with rfl | hg2
              · exact Or.inl (Or.inr rfl)
              · exact Or.inr ⟨g, hg2, hgs, rfl⟩

theorem list_subjects_sorted (s : Store) :
    List.Sorted (fun a b => a ≤ b) (list_subjects s) :=
  List.sorted_insertionSort _ _

theorem list_subjects_perm_keys (s : Store) : (list_subjects s).Perm s.keys :=
  List.perm_insertionSort _ _

/-- C2: loading a directory of only well-formed JSON files yields a store
whose key set is exactly the set of file stems; `list_subjects` lists
exactly those identifiers, sorted and without duplicates; a missing
directory or a directory with no matching files yields the empty mapping
rather than a failure. -/
theorem c2_load_and_list_subjects (files : List (String × Option Doc)) (v : Bool)
    (hwf : ∀ f ∈ files, f.2.isSome = true) :
    (∀ k, k ∈ (load_profiles (some files) v).keys ↔ k ∈ files.map Prod.fst) ∧
    List.Sorted (fun a b => a ≤ b) (list_subjects (load_profiles (some files) v)) ∧
    (list_subjects (load_profiles (some files) v)).Nodup ∧
    (∀ k, k ∈ list_subjects (load_profiles (some files) v) ↔ k ∈ files.map Prod.fst) ∧
    load_profiles none v = [] ∧
    load_profiles (some []) v = [] := by
  have hkeys : ∀ k, k ∈ (load_profiles (some files) v).keys ↔ k ∈ files.map Prod.fst := by
    intro k
    rw [load_profiles_mem_keys]
    constructor
    · rintro ⟨f, hf, _, rfl⟩
      exact List.mem_map.mpr ⟨f, hf, rfl⟩
    · intro hk
      rcases List.mem_map.mp hk with ⟨f, hf, rfl⟩
      exact ⟨f, hf, hwf f hf, rfl⟩
  refine ⟨hkeys, list_subjects_sorted _, ?_, ?_, rfl, rfl⟩
  · exact (list_subjects_perm_keys _).symm.nodup
      (load_profiles_nodup_keys (some files) v)
  · intro k
    rw [(list_subjects_perm_keys _).mem_iff]
    exact hkeys k

/-- Witness for C2 on a one-file directory whose file is well-formed, plus
the empty cases. -/
theorem c2_witness :
    ("A" ∈ (load_profiles (some [("A", some Doc.null)]) true).keys ↔
      "A" ∈ [("A", some Doc.null)].map Prod.fst) ∧
    (list_subjects (load_profiles (some [("A", some Doc.null)]) true)).Nodup ∧
    load_profiles none true = [] ∧
    load_profiles (some []) true = [] := by
  have h := c2_load_and_list_subjects [("A", some Doc.null)] true
    (by
      intro f hf
      rcases List.mem_singleton.mp hf with rfl
      rfl)
  exact ⟨h.1 "A", h.2.2.1, h.2.2.2.2.1, h.2.2.2.2.2⟩

/- ### Path Enumerator lemmas -/

/-- A non-empty document: a mapping or sequence with at least one
element. -/
def Doc.nonEmptyContainer : Doc → Bool
  | Doc.obj (_ :: _) => true
  | Doc.arr (_ :: _) => true
  | _ => false

/-- Number of traversable nodes of a document within the depth bound: every
mapping entry and sequence element the enumeration visits. -/
def nodeCount : Nat → Doc → Nat
  | 0, _ => 0
  | n + 1, Doc.obj kvs => (kvs.map (fun kv => 1 + nodeCount n kv.2)).sum
  | n + 1, Doc.arr xs => (xs.map (fun x => 1 + nodeCount n x)).sum
  | _ + 1, Doc.str _ => 0
  | _ + 1, Doc.num _ => 0
  | _ + 1, Doc.bool _ => 0
  | _ + 1, Doc.null => 0

/-- Well-formedness of a document down to the depth bound: within the bound
every mapping has pairwise-distinct keys — guaranteed for documents parsed
from JSON files, since a Python dict cannot hold duplicate keys. -/
def wfTo : Nat → Doc → Bool
  | 0, _ => true
  | n + 1, Doc.obj kvs =>
      decide (kvs.map Prod.fst).Nodup && kvs.all (fun kv => wfTo n kv.2)
  | n + 1, Doc.arr xs => xs.all (wfTo n)
  | _ + 1, Doc.str _ => true
  | _ + 1, Doc.num _ => true
  | _ + 1, Doc.bool _ => true
  | _ + 1, Doc.null => true

theorem childPaths_length_le (n : Nat) :
    ∀ (d : Doc), ∀ p ∈ childPaths n d, 1 ≤ p.length ∧ p.length ≤ n := by
  induction n with
  | zero => intro d p hp; simp [childPaths] at hp
  | succ m ih =>
      intro d p hp
      match d with
      | Doc.obj kvs =>
          simp only [childPaths] at hp
          rcases List.mem_flatMap.mp hp with ⟨kv, hkv, hin⟩
          rcases List.mem_cons.mp hin with rfl | hin2
          · simp
          · rcases List.mem_map.mp hin2 with ⟨q, hq, rfl⟩
            have h := ih kv.2 q hq
            simp only [List.length_cons]
            omega
      | Doc.arr xs =>
          simp only [childPaths] at hp
          rcases List.mem_flatMap.mp hp with ⟨ix, hix, hin⟩
          rcases List.mem_cons.mp hin with rfl | hin2
          · simp
          · rcases List.mem_map.mp hin2 with ⟨q, hq, rfl⟩
            have h := ih ix.2 q hq
            simp only [List.length_cons]
            omega
      | Doc.str v => simp [childPaths] at hp
      | Doc.num v => simp [childPaths] at hp
      | Doc.bool v => simp [childPaths] at hp
      | Doc.null => simp [childPaths] at hp

theorem childPaths_length_eq_nodeCount (n : Nat) :
    ∀ d : Doc, (childPaths n d).length = nodeCount n d := by
  induction n with
  | zero => intro d; simp [childPaths, nodeCount]
  | succ m ih =>
      intro d
      match d with
      | Doc.obj kvs =>
          simp only [childPaths, nodeCount, List.length_flatMap]
          congr 1
          refine List.map_congr_left ?_
          intro kv _
          simp only [Function.comp, List.length_cons, List.length_map, ih kv.2]
          omega
      | Doc.arr xs =>
          simp only [childPaths, nodeCount, List.length_flatMap]
          have hcong : List.map
              (List.length ∘ fun ix =>
                [Seg.idx ix.1] :: (childPaths m ix.2).map (fun p => Seg.idx ix.1 :: p))
              xs.enum
              = List.map ((fun x => 1 + nodeCount m x) ∘ Prod.snd) xs.enum := by
            refine List.map_congr_left ?_
            intro ix _
            simp only [Function.comp, List.length_cons, List.length_map, ih ix.2]
            exact Nat.add_comm _ 1
          rw [hcong, ← List.map_map, List.enum_map_snd]
      | Doc.str v => simp [childPaths, nodeCount]
      | Doc.num v => simp [childPaths, nodeCount]
      | Doc.bool v => simp [childPaths, nodeCount]
      | Doc.null => simp [childPaths, nodeCount]

theorem nodeCount_pos (n : Nat) (d : Doc) (hn : 1 ≤ n)
    (hd : d.nonEmptyContainer = true) : 1 ≤ nodeCount n d := by
  match n, d with
  | 0, _ => omega
  | m + 1, Doc.obj (kv :: kvs) =>
      simp only [nodeCount, List.map_cons, List.sum_cons]
      omega
  | m + 1, Doc.arr (x :: xs) =>
      simp only [nodeCount, List.map_cons, List.sum_cons]
      omega
  | m + 1, Doc.obj [] => simp [Doc.nonEmptyContainer] at hd
  | m + 1, Doc.arr [] => simp [Doc.nonEmptyContainer] at hd
  | m + 1, Doc.str v => simp [Doc.nonEmptyContainer] at hd
  | m + 1, Doc.num v => simp [Doc.nonEmptyContainer] at hd
  | m + 1, Doc.bool v => simp [Doc.nonEmptyContainer] at hd
  | m + 1, Doc.null => simp [Doc.nonEmptyContainer] at hd

theorem mem_segBranch_head (xs : List (List Seg)) (s : Seg) {p : List Seg}
    (hp : p ∈ [s] :: xs.map (fun q => s :: q)) : ∃ rest, p = s :: rest := by
  rcases List.mem_cons.mp hp with rfl | h2
  · exact ⟨[], rfl⟩
  · rcases List.mem_map.mp h2 with ⟨q, _, rfl⟩
    exact ⟨q, rfl⟩

theorem segBranch_nodup (xs : List (List Seg)) (s : Seg) (hx : xs.Nodup)
    (hlen : ∀ q ∈ xs, 1 ≤ q.length) :
    ([s] :: xs.map (fun q => s :: q)).Nodup := by
  refine List.nodup_cons.mpr ⟨?_, ?_⟩
  · intro hmem
    rcases List.mem_map.mp hmem with ⟨q, hq, heq⟩
    have hq0 : q = [] := (List.cons.injEq _ _ _ _ ▸ heq).2
    have := hlen q hq
    rw [hq0] at this
    simp at this
  · exact hx.map (fun q₁ q₂ h => (List.cons.injEq _ _ _ _ ▸ h).2)

theorem childPaths_nodup (n : Nat) :
    ∀ d : Doc, wfTo n d = true → (childPaths n d).Nodup := by
  induction n with
  | zero => intro d _; simp [childPaths]
  | succ m ih =>
      intro d hwf
      match d with
      | Doc.obj kvs =>
          simp only [wfTo, Bool.and_eq_true, decide_eq_true_eq,
            List.all_eq_true] at hwf
          obtain ⟨hkeys, hall⟩ := hwf
          simp only [childPaths]
          rw [List.nodup_flatMap]
          refine ⟨?_, ?_⟩
          · intro kv hkv
            exact segBranch_nodup _ _ (ih kv.2 (hall kv hkv))
              (fun q hq => (childPaths_length_le m kv.2 q hq).1)
          · have hpw : kvs.Pairwise (fun a b => a.1 ≠ b.1) :=
              List.pairwise_map.mp hkeys
            refine hpw.imp ?_
            intro a b hab p hpa hpb
            rcases mem_segBranch_head _ _ hpa with ⟨r1, h1⟩
            rcases mem_segBranch_head _ _ hpb with ⟨r2, h2⟩
            rw [h1] at h2
            exact hab (Seg.key.injEq _ _ ▸ (List.cons.injEq _ _ _ _ ▸ h2).1)
      | Doc.arr xs =>
          simp only [wfTo, List.all_eq_true] at hwf
          simp only [childPaths]
          rw [List.nodup_flatMap]
          refine ⟨?_, ?_⟩
          · intro ix hix
            have hmem : ix.2 ∈ xs := by
              have := List.mem_map_of_mem Prod.snd hix
              rwa [List.enum_map_snd] at this
            exact segBranch_nodup _ _ (ih ix.2 (hwf ix.2 hmem))
              (fun q hq => (childPaths_length_le m ix.2 q hq).1)
          · have hfst : (xs.enum.map Prod.fst).Nodup := by
              rw [List.enum_map_fst]
              exact List.nodup_range _
            have hpw : xs.enum.Pairwise (fun a b => a.1 ≠ b.1) :=
              List.pairwise_map.mp hfst
            refine hpw.imp ?_
            intro a b hab p hpa hpb
            rcases mem_segBranch_head _ _ hpa with ⟨r1, h1⟩
            rcases mem_segBranch_head _ _ hpb with ⟨r2, h2⟩
            rw [h1] at h2
            exact hab (Seg.idx.injEq _ _ ▸ (List.cons.injEq _ _ _ _ ▸ h2).1)
      | Doc.str v => simp [childPaths]
      | Doc.num v => simp [childPaths]
      | Doc.bool v => simp [childPaths]
      | Doc.null => simp [childPaths]

/-- C3 (amended): for every Document and `max_depth`, no enumerated path has
more segments than `max_depth`; the enumeration is non-empty whenever the
Document is a non-empty container **and `max_depth ≥ 1`** (at `max_depth = 0`
the enumeration is always empty — see the counterexample); it yields exactly
one path per traversable node within the bound (their count equals the node
count, and on documents without duplicate mapping keys the paths are
pairwise distinct), produced in document traversal order by construction —
mapping insertion order, then sequence index order. -/
theorem c3_enumerate_paths_depth_bound (d : Doc) (max_depth : Nat) :
    (∀ p ∈ childPaths max_depth d, 1 ≤ p.length ∧ p.length ≤ max_depth) ∧
    (1 ≤ max_depth → d.nonEmptyContainer = true →
      enumerate_paths d max_depth ≠ []) ∧
    (enumerate_paths d max_depth).length = nodeCount max_depth d ∧
    (wfTo max_depth d = true → (childPaths max_depth d).Nodup) := by
  have hlen : (enumerate_paths d max_depth).length = nodeCount max_depth d := by
    unfold enumerate_paths
    rw [List.length_map]
    exact childPaths_length_eq_nodeCount max_depth d
  refine ⟨childPaths_length_le max_depth d, ?_, hlen, childPaths_nodup max_depth d⟩
  intro hn hd hnil
  rw [hnil] at hlen
  have := nodeCount_pos max_depth d hn hd
  simp at hlen
  omega

/-- Counterexample to C3 as stated: at `max_depth = 0` — allowed by the
claim's "every max_depth ≥ 0" — the enumeration of a non-empty Document is
empty, so "returns at least one path whenever the Document is non-empty"
fails. -/
theorem c3_counterexample :
    Doc.nonEmptyContainer (Doc.obj [("x", Doc.num 1)]) = true ∧
    enumerate_paths (Doc.obj [("x", Doc.num 1)]) 0 = [] :=
  ⟨rfl, rfl⟩

/-- Witness for C3 at the spec's own example document `{"x": {"y": 1}}`. -/
theorem c3_witness :
    enumerate_paths (Doc.obj [("x", Doc.obj [("y", Doc.num 1)])]) 1 ≠ [] ∧
    (childPaths 2 (Doc.obj [("x", Doc.obj [("y", Doc.num 1)])])).Nodup :=
  ⟨(c3_enumerate_paths_depth_bound (Doc.obj [("x", Doc.obj [("y", Doc.num 1)])]) 1).2.1
      (by decide) rfl,
   (c3_enumerate_paths_depth_bound (Doc.obj [("x", Doc.obj [("y", Doc.num 1)])]) 2).2.2.2
      (by decide)⟩

/-- Sanity check against the spec's running example: at depth 1 the paths of
`{"x": {"y": 1}}` include `"x"` but not `"x.y"`; at depth 2 both appear. -/
theorem spec_example_paths :
    enumerate_paths (Doc.obj [("x", Doc.obj [("y", Doc.num 1)])]) 1 = ["x"] ∧
    enumerate_paths (Doc.obj [("x", Doc.obj [("y", Doc.num 1)])]) 2 = ["x", "x.y"] :=
  ⟨rfl, rfl⟩

/-- C7: `summarize_profiles` is a pure function, so calling it twice on the
same unmodified store yields identical rows in identical order; and each
call produces exactly one row per subject — the row's subject column — in
the sorted Profile Store listing order, omitting no subject (a subject with
all candidate fields absent still gets its row, with all-false flags). -/
theorem c7_summarize_idempotent_one_row_per_subject
    (fields : List (String × List Seg)) (s : Store) :
    summarize_profiles fields s = summarize_profiles fields s ∧
    (summarize_profiles fields s).map SummaryRow.subject = list_subjects s ∧
    (summarize_profiles fields s).length = (list_subjects s).length := by
  refine ⟨rfl, ?_, by simp [summarize_profiles]⟩
  unfold summarize_profiles
  rw [List.map_map]
  exact List.map_congr_left (fun sid _ => rfl) |>.trans (List.map_id _)

/-- C8: both depth-bounded operations of `oh_parser.extract` fail fast with
the InvalidArgument error (and perform no traversal) whenever
`max_depth < 0`. -/
theorem c8_negative_depth_invalid_argument (p : Doc) (max_depth : Int)
    (h : max_depth < 0) :
    inspect_profile p max_depth = Except.error invalidDepthMsg ∧
    get_available_paths p max_depth = Except.error invalidDepthMsg := by
  unfold inspect_profile get_available_paths
  rw [if_pos h, if_pos h]
  exact ⟨rfl, rfl⟩

/-- Witness for C8 at `max_depth = -1`. -/
theorem c8_witness :
    inspect_profile Doc.null (-1) = Except.error invalidDepthMsg ∧
    get_available_paths Doc.null (-1) = Except.error invalidDepthMsg :=
  c8_negative_depth_invalid_argument Doc.null (-1) (by decide)

/- ### CLI claim proofs -/

theorem isEmpty_false_of_ne_nil {s : Store} (h : s ≠ []) : s.isEmpty = false := by
  cases s with
  | nil => exact absurd rfl h
  | cons kv t => rfl

/-- C4 (amended): for every store and every **non-empty** subject identifier
absent from it, invoking the CLI with `--inspect` for that identifier —
with no higher-precedence `--list` flag — prints the not-found error to
stderr and exits with code 1, printing no outline; an empty identifier is
falsy in the Python `elif args.inspect:` test and silently skips the
branch instead (see the counterexample). -/
theorem c4_inspect_absent_subject (a : Args) (s : Store) (sid : String)
    (hlist : a.list_subjects = false) (hins : a.inspect = some sid)
    (hne : sid ≠ "") (habs : get_profile s sid = none) (hs : s ≠ []) :
    mainRun a s =
      { exitCode := 1, stdout := []
        stderr := [s!"Error: Subject '{sid}' not found."] } := by
  have h1 : s.isEmpty = false := isEmpty_false_of_ne_nil hs
  have h2 : truthy (some sid) = true := by
    simpa [truthy] using hne
  simp only [mainRun, h1, hlist, h2, hins, Option.getD_some, habs,
    Bool.false_eq_true, if_false, if_true]

/-- Counterexample to C4 as stated: the empty identifier is a subject
identifier absent from the store `[("A", null)]`, yet `--inspect ""` prints
no error and the process exits with code 0 (the default branch runs),
because `elif args.inspect:` is false for the empty string. -/
theorem c4_counterexample :
    get_profile [("A", Doc.null)] "" = none ∧
    (mainRun { inspect := some "" } [("A", Doc.null)]).exitCode = 0 ∧
    (mainRun { inspect := some "" } [("A", Doc.null)]).stderr = [] :=
  ⟨rfl, rfl, rfl⟩

/-- Witness for C4 at a concrete store and the absent identifier
`"ghost"`. -/
theorem c4_witness :
    mainRun { inspect := some "ghost" } [("A", Doc.null)] =
      { exitCode := 1, stdout := []
        stderr := ["Error: Subject 'ghost' not found."] } :=
  c4_inspect_absent_subject { inspect := some "ghost" } [("A", Doc.null)] "ghost"
    rfl rfl (by decide) rfl (List.cons_ne_nil _ _)

/-- C5 (amended): with `--paths SUBJECT_ID` selected by the `if/elif` chain
(identifier non-empty, no higher-precedence flag), a present subject's paths
are enumerated with depth limit 6 and at most the first 50 are printed,
followed by a count of the remaining ones exactly when more than 50 exist;
an absent subject produces a stderr error and exit code 1.  As stated the
claim fails for the empty identifier, which is falsy in `elif args.paths:`
(see the counterexample). -/
theorem c5_paths_action (a : Args) (s : Store) (sid : String)
    (hlist : a.list_subjects = false) (hins : truthy a.inspect = false)
    (hpaths : a.paths = some sid) (hne : sid ≠ "") (hs : s ≠ []) :
    (∀ p, get_profile s sid = some p →
      mainRun a s =
        { exitCode := 0
          stdout :=
            (s!"\nAvailable paths for subject {sid} ({(enumerate_paths p 6).length} total):")
              :: (((enumerate_paths p 6).take 50).map (fun q => "  " ++ q)
                ++ (if 50 < (enumerate_paths p 6).length then
                      [s!"  ... and {(enumerate_paths p 6).length - 50} more"]
                    else []))
          stderr := [] }) ∧
    (get_profile s sid = none →
      mainRun a s =
        { exitCode := 1, stdout := []
          stderr := [s!"Error: Subject '{sid}' not found."] }) := by
  have h1 : s.isEmpty = false := isEmpty_false_of_ne_nil hs
  have h2 : truthy (some sid) = true := by
    simpa [truthy] using hne
  constructor
  · intro p hp
    simp only [mainRun, h1, hlist, hins, h2, hpaths, Option.getD_some, hp,
      Bool.false_eq_true, if_false, if_true]
  · intro hp
    simp only [mainRun, h1, hlist, hins, h2, hpaths, Option.getD_some, hp,
      Bool.false_eq_true, if_false, if_true]

/-- Counterexample to C5 as stated: `--paths ""` with `""` absent from the
store neither prints an error nor exits 1 — `elif args.paths:` is false for
the empty string, so the default branch runs and the process exits 0. -/
theorem c5_counterexample :
    get_profile [("A", Doc.null)] "" = none ∧
    (mainRun { paths := some "" } [("A", Doc.null)]).exitCode = 0 ∧
    (mainRun { paths := some "" } [("A", Doc.null)]).stderr = [] :=
  ⟨rfl, rfl, rfl⟩

/-- Witness for C5: a present subject with a single path, printed in full
with no truncation line. -/
theorem c5_witness :
    mainRun { paths := some "A" } [("A", Doc.obj [("x", Doc.null)])] =
      { exitCode := 0
        stdout := ["\nAvailable paths for subject A (1 total):", "  x"]
        stderr := [] } :=
  (c5_paths_action { paths := some "A" } [("A", Doc.obj [("x", Doc.null)])] "A"
      rfl rfl rfl (by decide) (List.cons_ne_nil _ _)).1
    (Doc.obj [("x", Doc.null)]) rfl

/-- C1 (amended): with a non-negative `--depth` (so the inspect action
completes normally), the exit code is 1 exactly when zero profiles were
loaded — in which case "No profiles loaded." is printed to stderr — or when
the action actually selected by the `if/elif` chain is `--inspect` or
`--paths` (flag supplied non-empty, no higher-precedence flag) with an
absent subject; every other completed invocation exits 0.  As stated the
claim fails for flag combinations: with `--list` also supplied, an absent
`--inspect` subject no longer forces exit code 1 (see the
counterexample). -/
theorem c1_exit_code (a : Args) (s : Store) (hd : 0 ≤ a.depth) :
    ((mainRun a s).exitCode = 1 ↔
      (s = [] ∨
        (a.list_subjects = false ∧ truthy a.inspect = true ∧
          get_profile s (a.inspect.getD "") = none) ∨
        (a.list_subjects = false ∧ truthy a.inspect = false ∧
          truthy a.paths = true ∧ get_profile s (a.paths.getD "") = none))) ∧
    ((mainRun a s).exitCode = 0 ∨ (mainRun a s).exitCode = 1) ∧
    (s = [] → (mainRun a s).stderr = ["No profiles loaded."]) := by
  by_cases hs : s = []
  · subst hs
    refine ⟨?_, ?_, fun _ => rfl⟩
    · simp [mainRun]
    · simp [mainRun]
  · have h1 : s.isEmpty = false := isEmpty_false_of_ne_nil hs
    by_cases hl : a.list_subjects = true
    · have he : (mainRun a s).exitCode = 0 := by
        simp only [mainRun, h1, hl, Bool.false_eq_true, if_false, if_true]
      refine ⟨?_, Or.inl he, fun hc => absurd hc hs⟩
      rw [he]
      simp [hs, hl]
    · have hl' : a.list_subjects = false := by simpa using hl
      by_cases hi : truthy a.inspect = true
      · cases hp : get_profile s (a.inspect.getD "") with
        | none =>
            have he : (mainRun a s).exitCode = 1 := by
              simp only [mainRun, h1, hl', hi, hp, Bool.false_eq_true, if_false,
                if_true]
            refine ⟨?_, Or.inr he, fun hc => absurd hc hs⟩
            rw [he]
            exact iff_of_true rfl (Or.inr (Or.inl ⟨hl', hi, rfl⟩))
        | some p =>
            have hok : inspect_profile p a.depth =
                Except.ok (outline a.depth.toNat "" p) := by
              unfold inspect_profile
              rw [if_neg (not_lt.mpr hd)]
            have he : (mainRun a s).exitCode = 0 := by
              simp only [mainRun, h1, hl', hi, hp, hok, Bool.false_eq_true,
                if_false, if_true]
            refine ⟨?_, Or.inl he, fun hc => absurd hc hs⟩
            rw [he]
            simp [hs, hi, hp]
      · have hi' : truthy a.inspect = false := by simpa using hi
        by_cases hpa : truthy a.paths = true
        · cases hp : get_profile s (a.paths.getD "") with
          | none =>
              have he : (mainRun a s).exitCode = 1 := by
                simp only [mainRun, h1, hl', hi', hpa, hp, Bool.false_eq_true,
                  if_false, if_true]
              refine ⟨?_, Or.inr he, fun hc => absurd hc hs⟩
              rw [he]
              exact iff_of_true rfl (Or.inr (Or.inr ⟨hl', hi', hpa, rfl⟩))
          | some p =>
              have he : (mainRun a s).exitCode = 0 := by
                simp only [mainRun, h1, hl', hi', hpa, hp, Bool.false_eq_true,
                  if_false, if_true]
              refine ⟨?_, Or.inl he, fun hc => absurd hc hs⟩
              rw [he]
              simp [hs, hi', hp]
        · have hpa' : truthy a.paths = false := by simpa using hpa
          by_cases hsm : a.summary = true
          · have he : (mainRun a s).exitCode = 0 := by
              simp only [mainRun, h1, hl', hi', hpa', hsm, Bool.false_eq_true,
                if_false, if_true]
            refine ⟨?_, Or.inl he, fun hc => absurd hc hs⟩
            rw [he]
            simp [hs, hi', hpa']
          · have hsm' : a.summary = false := by simpa using hsm
            have he : (mainRun a s).exitCode = 0 := by
              simp only [mainRun, h1, hl', hi', hpa', hsm', Bool.false_eq_true,
                if_false, if_true]
            refine ⟨?_, Or.inl he, fun hc => absurd hc hs⟩
            rw [he]
            simp [hs, hi', hpa']

/-- Counterexample to C1 as stated: profiles are loaded and the subject
requested via `--inspect` is absent from the store, yet the exit code is 0,
because the higher-precedence `--list` action runs and the absent subject is
silently ignored. -/
theorem c1_counterexample :
    get_profile [("A", Doc.null)] "ghost" = none ∧
    ({ list_subjects := true, inspect := some "ghost" } : Args).inspect =
      some "ghost" ∧
    (mainRun { list_subjects := true, inspect := some "ghost" }
      [("A", Doc.null)]).exitCode = 0 :=
  ⟨rfl, rfl, rfl⟩

/-- Witness for C1 at the default argparse namespace on a one-profile
store. -/
theorem c1_witness :
    (mainRun {} [("A", Doc.null)]).exitCode = 0 ∨
    (mainRun {} [("A", Doc.null)]).exitCode = 1 :=
  (c1_exit_code {} [("A", Doc.null)] (by decide)).2.1

/-- C9 (amended): exactly one action is executed, chosen by the precedence
`--list` over `--inspect` over `--paths` over `--summary` **among the flags
argparse stored as truthy** (a string flag participates only when
non-empty); the remaining supplied flags are silently ignored — turning
every lower-precedence flag off does not change the outcome.  As stated the
claim fails for `--inspect ""` (see the counterexample). -/
theorem c9_precedence (a : Args) (s : Store) :
    (a.list_subjects = true → selectedAction a = Action.list) ∧
    (a.list_subjects = false → truthy a.inspect = true →
      selectedAction a = Action.inspect) ∧
    (a.list_subjects = false → truthy a.inspect = false →
      truthy a.paths = true → selectedAction a = Action.paths) ∧
    (a.list_subjects = false → truthy a.inspect = false →
      truthy a.paths = false → a.summary = true →
      selectedAction a = Action.summary) ∧
    mainRun a s = mainRun (keepSelected a) s := by
  refine ⟨?_, ?_, ?_, ?_, ?_⟩
  · intro h
    simp [selectedAction, h]
  · intro h1 h2
    simp [selectedAction, h1, h2]
  · intro h1 h2 h3
    simp [selectedAction, h1, h2, h3]
  · intro h1 h2 h3 h4
    simp [selectedAction, h1, h2, h3, h4]
  · by_cases hl : a.list_subjects = true
    · have hsel : selectedAction a = Action.list := by simp [selectedAction, hl]
      simp only [keepSelected, hsel, mainRun, hl, if_true]
    · have hl' : a.list_subjects = false := by simpa using hl
      by_cases hi : truthy a.inspect = true
      · have hsel : selectedAction a = Action.inspect := by
          simp [selectedAction, hl', hi]
        simp only [keepSelected, hsel, mainRun, hl', hi, Bool.false_eq_true,
          if_false, if_true]
      · have hi' : truthy a.inspect = false := by simpa using hi
        by_cases hp : truthy a.paths = true
        · have hsel : selectedAction a = Action.paths := by
            simp [selectedAction, hl', hi', hp]
          simp only [keepSelected, hsel, mainRun, hl', hi', hp,
            Bool.false_eq_true, if_false, if_true]
        · have hp' : truthy a.paths = false := by simpa using hp
          by_cases hsm : a.summary = true
          · have hsel : selectedAction a = Action.summary := by
              simp [selectedAction, hl', hi', hp', hsm]
            simp only [keepSelected, hsel]
          · have hsm' : a.summary = false := by simpa using hsm
            have hsel : selectedAction a = Action.default := by
              simp [selectedAction, hl', hi', hp', hsm']
            simp only [keepSelected, hsel]

/-- Counterexample to C9 as stated: `--inspect ""` and `--summary` are both
supplied and the precedence says inspect wins, yet the summary action is the
one executed, because the empty string is falsy in `elif args.inspect:`. -/
theorem c9_counterexample :
    ({ inspect := some "", summary := true } : Args).inspect.isSome = true ∧
    selectedAction { inspect := some "", summary := true } = Action.summary ∧
    (mainRun { inspect := some "", summary := true }
        [("A", Doc.null)]).stdout.head? =
      some "\nData availability summary:" :=
  ⟨rfl, rfl, rfl⟩

/-- Witness for C9 with `--list` set: the selected action is `--list` and
clearing the other flags leaves the outcome unchanged. -/
theorem c9_witness :
    selectedAction { list_subjects := true } = Action.list ∧
    mainRun { list_subjects := true } [("A", Doc.null)] =
      mainRun (keepSelected { list_subjects := true }) [("A", Doc.null)] :=
  ⟨(c9_precedence { list_subjects := true } [("A", Doc.null)]).1 rfl,
   (c9_precedence { list_subjects := true } [("A", Doc.null)]).2.2.2.2⟩

/-- C10: on the no-flag default branch, `subjects[0]` can never fail: an
invocation that loaded zero profiles has already exited with code 1 at the
`if not profiles` guard, and for a non-empty store the sorted subject list
is non-empty, so the default branch indexes a non-empty list and completes
with exit code 0. -/
theorem c10_default_branch_safe (a : Args) (s : Store)
    (hl : a.list_subjects = false) (hi : truthy a.inspect = false)
    (hp : truthy a.paths = false) (hsm : a.summary = false) (hs : s ≠ []) :
    list_subjects s ≠ [] ∧ (list_subjects s).head?.isSome = true ∧
    (mainRun a s).exitCode = 0 := by
  have hne : list_subjects s ≠ [] := by
    intro hnil
    have hperm := list_subjects_perm_keys s
    rw [hnil] at hperm
    have hkeys : s.keys = [] := hperm.symm.eq_nil
    cases s with
    | nil => exact hs rfl
    | cons kv t => simp [Store.keys] at hkeys
  have hhead : (list_subjects s).head?.isSome = true := by
    cases hq : list_subjects s with
    | nil => exact absurd hq hne
    | cons x t => rfl
  refine ⟨hne, hhead, ?_⟩
  have h1 : s.isEmpty = false := isEmpty_false_of_ne_nil hs
  simp only [mainRun, h1, hl, hi, hp, hsm, Bool.false_eq_true, if_false]

/-- Witness for C10 on a one-profile store with the default (flag-free)
argparse namespace. -/
theorem c10_witness :
    list_subjects [("A", Doc.null)] ≠ [] ∧
    (list_subjects [("A", Doc.null)]).head?.isSome = true ∧
    (mainRun {} [("A", Doc.null)]).exitCode = 0 :=
  c10_default_branch_safe {} [("A", Doc.null)] rfl rfl rfl rfl
    (List.cons_ne_nil _ _)

end OH
